import Mathlib

/-!
Shallow embedding of the butler crawler, `src/butler/main.go`.

The crawler state (`Crawler`) carries the fields of the Go `Crawler`
struct that the crawl logic touches: the `www` flag, the domain
allow-list, the pending task queue, the `sync.WaitGroup` counter
(`waiter`) and the known-set of already admitted URL strings.  The Go
maps are queried only for key membership, so they are modelled as lists
with list membership.  Reporter calls are modelled as an emitted list of
`Report` events; the Go code broadcasts each event to every registered
reporter in registration order, so one `Report` value stands for one
such broadcast.  The priority queue is modelled as a plain list: the
crawler only appends tasks, and nothing here depends on dequeue order.

External collaborators (the Go standard library) are modelled at the
level the crawler uses them:
* values of `net/url` keep the fields the crawler reads or writes
  (scheme, host, path, query, fragment, no user info or opaque part);
  `URL.render` follows `url.URL.String`, and `resolveReference` follows
  `url.URL.ResolveReference` restricted to those fields.
* the function `strings.HasPrefix` is `hasPfx`, a character-prefix
  test; the patterns the crawler passes are ASCII, where the byte-prefix
  test of Go and the character-prefix test agree.
* `http.Get`, the body read and the link-extraction regexp are I/O
  inputs to `process_url`, passed in as a `Fetch` value.
-/

namespace Butler

/-- Go `strings.HasPrefix s pre`. -/
def hasPfx (s pre : String) : Bool :=
  pre.data.isPrefixOf s.data

/-- The fields of `net/url.URL` the crawler reads or writes. -/
structure URL where
  scheme : String
  host : String
  path : String
  query : String
  fragment : String
deriving DecidableEq, Repr

/-- The dedup key `link.String()`: Go `url.URL.String` restricted to
the modelled fields. -/
def URL.render (u : URL) : String :=
  (if u.scheme ≠ "" then u.scheme ++ ":" else "")
    ++ (if u.scheme ≠ "" ∨ u.host ≠ "" then "//" ++ u.host else "")
    ++ (if u.path ≠ "" ∧ ¬ hasPfx u.path "/" ∧ u.host ≠ "" then "/" else "")
    ++ u.path
    ++ (if u.query ≠ "" then "?" ++ u.query else "")
    ++ (if u.fragment ≠ "" then "#" ++ u.fragment else "")

/-- The segment stack of the dot-segment removal inside Go `net/url`
`resolvePath`: `.` is skipped, `..` pops the last kept segment, any
other segment is kept. -/
def remDotSegs : List String → List String → List String
  | [], dst => dst
  | "." :: rest, dst => remDotSegs rest dst
  | ".." :: rest, dst => remDotSegs rest dst.dropLast
  | s :: rest, dst => remDotSegs rest (dst ++ [s])

/-- Modelled from the spec: the relative-to-absolute resolution the
crawler delegates to `net/url` (code outside this repository).  Follows
Go `resolvePath`: merge `ref` onto the directory of `base`, remove dot
segments, keep a trailing slash after a final dot segment. -/
def resolvePath (base ref : String) : String :=
  let full :=
    if ref = "" then base
    else if ¬ hasPfx ref "/" then
      String.mk ((base.data.reverse.dropWhile (fun c => c ≠ '/')).reverse) ++ ref
    else ref
  if full = "" then ""
  else
    let segs := full.splitOn "/"
    let r := String.intercalate "/" (remDotSegs segs [])
    let r := if segs.getLast? = some "." ∨ segs.getLast? = some ".." then r ++ "/" else r
    match r.data with
    | _c1 :: c2 :: rest => if c2 = '/' then String.mk (c2 :: rest) else r
    | _ => r

/-- Modelled from the spec: the relative-to-absolute resolution the
crawler delegates to `net/url` (code outside this repository).  Follows
Go `url.URL.ResolveReference` restricted to the modelled fields. -/
def resolveReference (u ref : URL) : URL :=
  if ref.scheme ≠ "" ∨ ref.host ≠ "" then
    { scheme := if ref.scheme = "" then u.scheme else ref.scheme
      host := ref.host
      path := resolvePath ref.path ""
      query := ref.query
      fragment := ref.fragment }
  else if ref.path = "" ∧ ref.query = "" then
    { scheme := u.scheme
      host := u.host
      path := resolvePath u.path ref.path
      query := u.query
      fragment := if ref.fragment = "" then u.fragment else ref.fragment }
  else
    { scheme := u.scheme
      host := u.host
      path := resolvePath u.path ref.path
      query := ref.query
      fragment := ref.fragment }

/-- The kind of a reporter event: the `Success`, `Ignored` and `Error`
hooks of the `Reporter` interface. -/
inductive RKind
  | success
  | ignored
  | error
deriving DecidableEq, Repr

/-- The `reason interface{}` argument of a reporter call: Go `nil`, the
`http.Get` error object, or a string. -/
inductive Reason
  | nilr
  | terr
  | msg (s : String)
deriving DecidableEq, Repr

/-- One reporter event; the Go crawler broadcasts it to every
registered reporter in registration order (main.go 57-73). -/
structure Report where
  kind : RKind
  url : URL
  status : Nat
  reason : Reason
deriving DecidableEq, Repr

/-- The crawler state: the fields of the Go `Crawler` struct (main.go
18-27) the crawl logic touches.  `waiter` is the `sync.WaitGroup`
counter; `queue` holds the URLs of the pending tasks. -/
structure Crawler where
  www : Bool
  domains : List String
  queue : List URL
  waiter : Int
  known : List String
deriving DecidableEq, Repr

/-- The state built by `New` (main.go 37-51); the `www` flag starts at
the Go zero value `false`. -/
def initCrawler : Crawler :=
  ⟨false, [], [], 0, []⟩

/-- Host canonicalization, `Crawler.normalize_host` (main.go 187-202).
`host.drop 4` is the Go byte slice `host[4:]`, taken after the `"www."`
prefix test, where the first four characters are ASCII. -/
def Crawler.normalize_host (c : Crawler) (host : String) : String :=
  if hasPfx host "www." then
    if c.www then host else host.drop 4
  else
    if c.www then "www." ++ host else host

/-- The normalization prefix of `Crawler.enqueue` (main.go 80-93):
resolve against the base when one is given and strip the fragment,
default an empty path to `/`, strip the fragment, canonicalize a
nonempty host. -/
def Crawler.normalizeLink (c : Crawler) (link : URL) (base : Option URL) : URL :=
  let l1 := match base with
    | some b => { resolveReference b link with fragment := "" }
    | none => link
  let l2 := if l1.path = "" then { l1 with path := "/" } else l1
  let l3 := { l2 with fragment := "" }
  if l3.host ≠ "" then { l3 with host := c.normalize_host l3.host } else l3

/-- Admission, `Crawler.enqueue` (main.go 79-117): normalize the link,
return silently when its rendered form is already known, otherwise
record it and either enqueue a task (scheme `http` and host in the
allow-list, with `waiter.Add(1)`) or fire one ignored report. -/
def Crawler.enqueue (c : Crawler) (link : URL) (base : Option URL) : Crawler × List Report :=
  let l := c.normalizeLink link base
  if l.render ∈ c.known then (c, [])
  else
    let c1 := { c with known := c.known ++ [l.render] }
    if l.scheme = "http" then
      if l.host ∈ c.domains then
        ({ c1 with waiter := c1.waiter + 1, queue := c1.queue ++ [l] }, [])
      else
        (c1, [⟨RKind.ignored, l, 0, Reason.msg "external domain"⟩])
    else
      (c1, [⟨RKind.ignored, l, 0, Reason.msg ("wrong scheme: " ++ l.scheme)⟩])

/-- The outcome of `http.Get` plus the link extraction, passed to
`process_url` as an input: either a transport error, or a response with
its status code, `Content-Type` header and the link list the regexp
extraction yields from the body.  Each list entry is the `url.Parse`
result of one unescaped raw `href` string: `none` when the raw string
starts with `#` or fails to parse (both are skipped by the loop at
main.go 169-182 with no reporter call), `some u` otherwise. -/
inductive Fetch
  | fail
  | resp (status : Nat) (contentType : String) (links : List (Option URL))
deriving DecidableEq, Repr

/-- The observable outcome of processing one task: the crawler state,
the emitted reporter events, and whether `ioutil.ReadAll(resp.Body)`
(main.go 154) ran. -/
structure ProcResult where
  state : Crawler
  reports : List Report
  bodyRead : Bool
deriving DecidableEq, Repr

/-- The link loop of `process_url` (main.go 169-182): admit every
parsed link against the page as base. -/
def Crawler.crawl_loop (c : Crawler) (page : URL) : List (Option URL) → Crawler × List Report
  | [] => (c, [])
  | none :: rest => c.crawl_loop page rest
  | some u :: rest =>
    (((c.enqueue u (some page)).1.crawl_loop page rest).1,
      (c.enqueue u (some page)).2 ++ ((c.enqueue u (some page)).1.crawl_loop page rest).2)

/-- Task processing, `Crawler.process_url` (main.go 146-185).  A
transport failure is reported as an error with status 0 before the body
exists; otherwise the body is read (main.go 154) before the status
check, a non-200 status is reported as an error with that status, a
response whose `Content-Type` does not start with `text/html` is
reported as ignored, and otherwise every extracted link is admitted and
one success report fires. -/
def Crawler.process_url (c : Crawler) (page : URL) (f : Fetch) : ProcResult :=
  match f with
  | Fetch.fail => ⟨c, [⟨RKind.error, page, 0, Reason.terr⟩], false⟩
  | Fetch.resp status ct links =>
    if status ≠ 200 then
      ⟨c, [⟨RKind.error, page, status, Reason.nilr⟩], true⟩
    else if ¬ hasPfx ct "text/html" then
      ⟨c, [⟨RKind.ignored, page, 0, Reason.msg ("content-type: " ++ ct)⟩], true⟩
    else
      ⟨(c.crawl_loop page links).1,
        (c.crawl_loop page links).2 ++ [⟨RKind.success, page, status, Reason.nilr⟩], true⟩

/-- One worker iteration of `Crawler.Run` (main.go 129-133): process a
dequeued task, then `waiter.Done()`. -/
def Crawler.run_step (c : Crawler) (page : URL) (f : Fetch) : ProcResult :=
  let r := c.process_url page f
  ⟨{ r.state with waiter := r.state.waiter - 1 }, r.reports, r.bodyRead⟩

/-- The URL `url.Parse ("http://" ++ d ++ "/")` yields for a plain host
string `d` (one with no reserved characters, as configured domains
are). -/
def seedURL (d : String) : URL :=
  ⟨"http", d, "/", "", ""⟩

/-- The loop body of `Crawler.Load` (main.go 216-224): canonicalize the
configured domain, add it to the allow-list, then admit
`http://<domain>/` with no base. -/
def Crawler.seedDomain (c : Crawler) (domain : String) : Crawler × List Report :=
  let d := c.normalize_host domain
  let c1 := { c with domains := c.domains ++ [d] }
  c1.enqueue (seedURL d) none

/-- Config loading, `Crawler.Load`, after a successful JSON parse
(main.go 204-227): set the `www` flag from the config, then seed every
configured domain in order. -/
def Crawler.load (c : Crawler) (www : Bool) (domains : List String) : Crawler × List Report :=
  domains.foldl
    (fun acc d =>
      let s := acc.1.seedDomain d
      (s.1, acc.2 ++ s.2))
    ({ c with www := www }, [])

/-! ### Concrete fixtures

`crawlerA` is `initCrawler` with `a.com` allowed, reachable from a
config with `www = false`; the URLs exercise the admission branches. -/

def crawlerA : Crawler := ⟨false, ["a.com"], [], 0, []⟩

def urlRoot : URL := ⟨"http", "a.com", "/", "", ""⟩

def urlX : URL := ⟨"http", "a.com", "/x", "", ""⟩

def urlXFrag : URL := ⟨"http", "a.com", "/x", "", "frag"⟩

def urlHttps : URL := ⟨"https", "a.com", "/x", "", ""⟩

def urlOther : URL := ⟨"http", "other.com", "/", "", ""⟩

/-! ### Helper lemmas -/

theorem normalize_host_congr {c c2 : Crawler} (h : c.www = c2.www) (s : String) :
    c.normalize_host s = c2.normalize_host s := by
  unfold Crawler.normalize_host
  rw [h]

theorem normalizeLink_congr {c c2 : Crawler} (h : c.www = c2.www) (l : URL) (b : Option URL) :
    c.normalizeLink l b = c2.normalizeLink l b := by
  unfold Crawler.normalizeLink
  simp only [normalize_host_congr h]

theorem enqueue_www (c : Crawler) (l : URL) (b : Option URL) :
    (c.enqueue l b).1.www = c.www := by
  simp only [Crawler.enqueue]
  split
  · rfl
  · split
    · split <;> rfl
    · rfl

theorem enqueue_domains (c : Crawler) (l : URL) (b : Option URL) :
    (c.enqueue l b).1.domains = c.domains := by
  simp only [Crawler.enqueue]
  split
  · rfl
  · split
    · split <;> rfl
    · rfl

theorem enqueue_known_mono (c : Crawler) (l : URL) (b : Option URL)
    {s : String} (h : s ∈ c.known) :
    s ∈ (c.enqueue l b).1.known := by
  simp only [Crawler.enqueue]
  split
  · exact h
  · split
    · split
      · exact List.mem_append_left _ h
      · exact List.mem_append_left _ h
    · exact List.mem_append_left _ h

theorem enqueue_key_mem (c : Crawler) (l : URL) (b : Option URL) :
    (c.normalizeLink l b).render ∈ (c.enqueue l b).1.known := by
  simp only [Crawler.enqueue]
  split
  · assumption
  · split
    · split
      · exact List.mem_append_right _ (List.mem_singleton.mpr rfl)
      · exact List.mem_append_right _ (List.mem_singleton.mpr rfl)
    · exact List.mem_append_right _ (List.mem_singleton.mpr rfl)

theorem enqueue_noop (c : Crawler) (l : URL) (b : Option URL)
    (h : (c.normalizeLink l b).render ∈ c.known) :
    c.enqueue l b = (c, []) := by
  simp only [Crawler.enqueue, if_pos h]

theorem second_admit_noop (c : Crawler) (l l2 : URL) (b b2 : Option URL)
    (h : c.normalizeLink l b = c.normalizeLink l2 b2) :
    (c.enqueue l b).1.enqueue l2 b2 = ((c.enqueue l b).1, []) := by
  apply enqueue_noop
  rw [normalizeLink_congr (enqueue_www c l b), ← h]
  exact enqueue_key_mem c l b

theorem enqueue_reports (c : Crawler) (l : URL) (b : Option URL)
    {r : Report} (h : r ∈ (c.enqueue l b).2) :
    r.kind = RKind.ignored ∧ r.status = 0 ∧ r.url = c.normalizeLink l b
      ∧ (c.normalizeLink l b).render ∉ c.known := by
  simp only [Crawler.enqueue] at h
  split at h
  · simp at h
  · rename_i hk
    split at h
    · split at h
      · simp at h
      · simp at h
        subst h
        exact ⟨rfl, rfl, rfl, hk⟩
    · simp at h
      subst h
      exact ⟨rfl, rfl, rfl, hk⟩

theorem enqueue_count (c : Crawler) (l : URL) (b : Option URL) :
    (c.enqueue l b).1.waiter - c.waiter
      = ((c.enqueue l b).1.queue.length : Int) - (c.queue.length : Int) := by
  simp only [Crawler.enqueue]
  split
  · simp
  · split
    · split
      · simp
      · simp
    · simp

theorem crawl_loop_www (c : Crawler) (page : URL) (links : List (Option URL)) :
    (c.crawl_loop page links).1.www = c.www := by
  induction links generalizing c with
  | nil => rfl
  | cons hd tl ih =>
    cases hd with
    | none => exact ih c
    | some u =>
      simp only [Crawler.crawl_loop]
      rw [ih, enqueue_www]

theorem crawl_loop_known_mono (c : Crawler) (page : URL) (links : List (Option URL))
    {s : String} (h : s ∈ c.known) :
    s ∈ (c.crawl_loop page links).1.known := by
  induction links generalizing c with
  | nil => exact h
  | cons hd tl ih =>
    cases hd with
    | none => exact ih c h
    | some u =>
      simp only [Crawler.crawl_loop]
      exact ih _ (enqueue_known_mono _ _ _ h)

theorem crawl_loop_count (c : Crawler) (page : URL) (links : List (Option URL)) :
    (c.crawl_loop page links).1.waiter - c.waiter
      = ((c.crawl_loop page links).1.queue.length : Int) - (c.queue.length : Int) := by
  induction links generalizing c with
  | nil => simp [Crawler.crawl_loop]
  | cons hd tl ih =>
    cases hd with
    | none => exact ih c
    | some u =>
      simp only [Crawler.crawl_loop]
      have h1 := enqueue_count c u (some page)
      have h2 := ih (c.enqueue u (some page)).1
      omega

theorem crawl_loop_reports_own (c : Crawler) (page : URL) (links : List (Option URL))
    (hknown : page.render ∈ c.known) {r : Report}
    (h : r ∈ (c.crawl_loop page links).2) :
    r.url ≠ page := by
  induction links generalizing c with
  | nil => simp [Crawler.crawl_loop] at h
  | cons hd tl ih =>
    cases hd with
    | none => exact ih c hknown h
    | some u =>
      simp only [Crawler.crawl_loop, List.mem_append] at h
      cases h with
      | inl h =>
        have hr := enqueue_reports c u (some page) h
        intro heq
        apply hr.2.2.2
        rw [← hr.2.2.1, heq]
        exact hknown
      | inr h =>
        exact ih _ (enqueue_known_mono _ _ _ hknown) h

theorem crawl_loop_reports_ignored (c : Crawler) (page : URL) (links : List (Option URL))
    {r : Report} (h : r ∈ (c.crawl_loop page links).2) :
    r.kind = RKind.ignored ∧ r.status = 0 := by
  induction links generalizing c with
  | nil => simp [Crawler.crawl_loop] at h
  | cons hd tl ih =>
    cases hd with
    | none => exact ih c h
    | some u =>
      simp only [Crawler.crawl_loop, List.mem_append] at h
      cases h with
      | inl h =>
        have hr := enqueue_reports c u (some page) h
        exact ⟨hr.1, hr.2.1⟩
      | inr h => exact ih _ h

theorem hasPfx_append (pre s : String) : hasPfx (pre ++ s) pre = true := by
  simp [hasPfx, String.data_append]

theorem hasPfx_www_drop {s : String} (h1 : hasPfx s "www." = true)
    (h2 : hasPfx s "www.www." = false) :
    hasPfx (s.drop 4) "www." = false := by
  simp only [hasPfx, List.isPrefixOf_iff_prefix] at h1
  simp only [hasPfx, Bool.eq_false_iff, ne_eq, List.isPrefixOf_iff_prefix] at h2 ⊢
  obtain ⟨t, ht⟩ := h1
  rw [String.drop_eq]
  have hdata : (String.mk (s.data.drop 4)).data = s.data.drop 4 := rfl
  rw [hdata, ← ht, List.drop_left' (by rfl)]
  intro hpre
  apply h2
  rw [← ht]
  have h8 : (['w', 'w', 'w', '.'] : List Char) ++ ['w', 'w', 'w', '.']
      <+: ['w', 'w', 'w', '.'] ++ t :=
    (List.prefix_append_right_inj _).mpr hpre
  simpa using h8

theorem normalize_host_idem (c : Crawler) (s : String)
    (hyp : c.www = true ∨ hasPfx s "www.www." = false) :
    c.normalize_host (c.normalize_host s) = c.normalize_host s := by
  by_cases hp : hasPfx s "www." = true
  · by_cases hw : c.www = true
    · simp only [Crawler.normalize_host, hp, hw, if_true]
    · have hw' : c.www = false := by simpa using hw
      have h2 : hasPfx s "www.www." = false := by
        rcases hyp with h1 | h1
        · exact absurd h1 hw
        · exact h1
      have hfresh := hasPfx_www_drop hp h2
      simp only [Crawler.normalize_host, hp, hw', hfresh, if_true, Bool.false_eq_true,
        if_false]
  · have hp' : hasPfx s "www." = false := by simpa using hp
    by_cases hw : c.www = true
    · simp only [Crawler.normalize_host, hp', hw, hasPfx_append, if_true, Bool.false_eq_true,
        if_false]
    · have hw' : c.www = false := by simpa using hw
      simp only [Crawler.normalize_host, hp', hw', Bool.false_eq_true, if_false]

theorem normalizeLink_fragment (c : Crawler) (l : URL) (b : Option URL) :
    (c.normalizeLink l b).fragment = "" := by
  simp only [Crawler.normalizeLink]
  split <;> split <;> rfl

theorem normalizeLink_path_ne (c : Crawler) (l : URL) (b : Option URL) :
    (c.normalizeLink l b).path ≠ "" := by
  cases b with
  | none =>
    simp only [Crawler.normalizeLink]
    by_cases hp : l.path = ""
    · simp only [if_pos hp]
      split <;> simp
    · simp only [if_neg hp]
      split <;> simpa using hp
  | some bb =>
    simp only [Crawler.normalizeLink]
    by_cases hp : ({ resolveReference bb l with fragment := "" } : URL).path = ""
    · simp only [if_pos hp]
      split <;> simp
    · simp only [if_neg hp]
      split <;> simpa using hp

theorem process_known_mono (c : Crawler) (page : URL) (f : Fetch)
    {s : String} (h : s ∈ c.known) :
    s ∈ (c.process_url page f).state.known := by
  cases f with
  | fail => exact h
  | resp status ct links =>
    simp only [Crawler.process_url]
    split
    · exact h
    · split
      · exact h
      · exact crawl_loop_known_mono c page links h

/-- Reachability invariant behind the C8 hypothesis: every queued task
URL already has its dedup key in the known-set, and `enqueue` preserves
this. -/
theorem enqueue_queue_sub_known (c : Crawler) (l : URL) (b : Option URL)
    (hinv : ∀ u ∈ c.queue, u.render ∈ c.known) :
    ∀ u ∈ (c.enqueue l b).1.queue, u.render ∈ (c.enqueue l b).1.known := by
  simp only [Crawler.enqueue]
  split
  · exact hinv
  · split
    · split
      · intro u hu
        rw [List.mem_append] at hu
        cases hu with
        | inl hu => exact List.mem_append_left _ (hinv u hu)
        | inr hu =>
          rw [List.mem_singleton] at hu
          subst hu
          exact List.mem_append_right _ (List.mem_singleton.mpr rfl)
      · intro u hu
        exact List.mem_append_left _ (hinv u hu)
    · intro u hu
      exact List.mem_append_left _ (hinv u hu)

theorem crawl_loop_queue_sub_known (c : Crawler) (page : URL) (links : List (Option URL))
    (hinv : ∀ u ∈ c.queue, u.render ∈ c.known) :
    ∀ u ∈ (c.crawl_loop page links).1.queue, u.render ∈ (c.crawl_loop page links).1.known := by
  induction links generalizing c with
  | nil => exact hinv
  | cons hd tl ih =>
    cases hd with
    | none => exact ih c hinv
    | some u =>
      simp only [Crawler.crawl_loop]
      exact ih _ (enqueue_queue_sub_known c u (some page) hinv)

theorem process_queue_sub_known (c : Crawler) (page : URL) (f : Fetch)
    (hinv : ∀ u ∈ c.queue, u.render ∈ c.known) :
    ∀ u ∈ (c.process_url page f).state.queue,
      u.render ∈ (c.process_url page f).state.known := by
  cases f with
  | fail => exact hinv
  | resp status ct links =>
    simp only [Crawler.process_url]
    split
    · exact hinv
    · split
      · exact hinv
      · exact crawl_loop_queue_sub_known c page links hinv

/-! ### Claims -/

/-- C1: admitting twice with the same fully-normalized URL has the same
effect as admitting once: the second call finds the dedup key in the
known-set and is a silent no-op — the state (known-set, queue, tracker)
is unchanged and no reporter event fires, so at most one task is ever
enqueued per URL. -/
theorem admit_idempotent (c : Crawler) (l l2 : URL) (b b2 : Option URL)
    (h : c.normalizeLink l b = c.normalizeLink l2 b2) :
    (c.enqueue l b).1.enqueue l2 b2 = ((c.enqueue l b).1, []) :=
  second_admit_noop c l l2 b b2 h

theorem admit_idempotent_witness :
    (crawlerA.enqueue urlRoot none).1.enqueue urlRoot none
      = ((crawlerA.enqueue urlRoot none).1, []) :=
  admit_idempotent crawlerA urlRoot urlRoot none none rfl

/-- C2 counterexample: a second admission of an already-known URL
produces neither outcome — no task is enqueued, the tracker does not
move, and no report fires — so admission is not total over every call. -/
theorem admit_totality_cex :
    ((crawlerA.enqueue urlRoot none).1.enqueue urlRoot none).1.queue
        = (crawlerA.enqueue urlRoot none).1.queue
    ∧ ((crawlerA.enqueue urlRoot none).1.enqueue urlRoot none).1.waiter
        = (crawlerA.enqueue urlRoot none).1.waiter
    ∧ ((crawlerA.enqueue urlRoot none).1.enqueue urlRoot none).2 = [] := by
  decide

/-- C2 (amended): for every admit call whose normalized URL is not yet
in the known-set, exactly one of two outcomes occurs: either the task
is appended to the queue with one tracker increment and no report, or
queue and tracker are unchanged and exactly one ignored report fires.
Repeat admits of an already-known URL are silent no-ops with neither
outcome. -/
theorem admit_totality (c : Crawler) (l : URL) (b : Option URL)
    (h : (c.normalizeLink l b).render ∉ c.known) :
    ((c.enqueue l b).1.queue = c.queue ++ [c.normalizeLink l b]
        ∧ (c.enqueue l b).1.waiter = c.waiter + 1
        ∧ (c.enqueue l b).2 = [])
    ∨ ((c.enqueue l b).1.queue = c.queue
        ∧ (c.enqueue l b).1.waiter = c.waiter
        ∧ ∃ r, (c.enqueue l b).2 = [r] ∧ r.kind = RKind.ignored) := by
  simp only [Crawler.enqueue, if_neg h]
  split
  · split
    · exact Or.inl ⟨rfl, rfl, rfl⟩
    · exact Or.inr ⟨rfl, rfl, _, rfl, rfl⟩
  · exact Or.inr ⟨rfl, rfl, _, rfl, rfl⟩

theorem admit_totality_witness :
    ((crawlerA.enqueue urlHttps none).1.queue
        = crawlerA.queue ++ [crawlerA.normalizeLink urlHttps none]
      ∧ (crawlerA.enqueue urlHttps none).1.waiter = crawlerA.waiter + 1
      ∧ (crawlerA.enqueue urlHttps none).2 = [])
    ∨ ((crawlerA.enqueue urlHttps none).1.queue = crawlerA.queue
      ∧ (crawlerA.enqueue urlHttps none).1.waiter = crawlerA.waiter
      ∧ ∃ r, (crawlerA.enqueue urlHttps none).2 = [r] ∧ r.kind = RKind.ignored) :=
  admit_totality crawlerA urlHttps none (by decide)

/-- C3: a fresh link (dedup key not yet known) is admitted — its task
appended to the queue — iff its scheme is exactly `http` and its
canonical host is in the domain allow-list; with scheme `http` but a
host outside the allow-list one ignored report with reason
`external domain` fires, and with a scheme other than `http` one
ignored report with reason `wrong scheme: <scheme>` fires. -/
theorem admission_policy (c : Crawler) (l : URL) (b : Option URL)
    (h : (c.normalizeLink l b).render ∉ c.known) :
    ((c.enqueue l b).1.queue = c.queue ++ [c.normalizeLink l b]
        ↔ ((c.normalizeLink l b).scheme = "http" ∧ (c.normalizeLink l b).host ∈ c.domains))
    ∧ ((c.normalizeLink l b).scheme = "http" → (c.normalizeLink l b).host ∉ c.domains →
        (c.enqueue l b).2
          = [⟨RKind.ignored, c.normalizeLink l b, 0, Reason.msg "external domain"⟩])
    ∧ ((c.normalizeLink l b).scheme ≠ "http" →
        (c.enqueue l b).2
          = [⟨RKind.ignored, c.normalizeLink l b, 0,
              Reason.msg ("wrong scheme: " ++ (c.normalizeLink l b).scheme)⟩]) := by
  by_cases hs : (c.normalizeLink l b).scheme = "http"
  · by_cases hd : (c.normalizeLink l b).host ∈ c.domains
    · refine ⟨?_, fun _ hnd => absurd hd hnd, fun hns => absurd hs hns⟩
      simp only [Crawler.enqueue]
      rw [if_neg h, if_pos hs, if_pos hd]
      exact iff_of_true rfl ⟨hs, hd⟩
    · refine ⟨?_, fun _ _ => ?_, fun hns => absurd hs hns⟩
      · constructor
        · intro hq
          have hlen := congrArg List.length hq
          simp only [Crawler.enqueue] at hlen
          rw [if_neg h, if_pos hs, if_neg hd] at hlen
          simp at hlen
        · intro hand
          exact absurd hand.2 hd
      · simp only [Crawler.enqueue]
        rw [if_neg h, if_pos hs, if_neg hd]
  · refine ⟨?_, fun hs2 _ => absurd hs2 hs, fun _ => ?_⟩
    · constructor
      · intro hq
        have hlen := congrArg List.length hq
        simp only [Crawler.enqueue] at hlen
        rw [if_neg h, if_neg hs] at hlen
        simp at hlen
      · intro hand
        exact absurd hand.1 hs
    · simp only [Crawler.enqueue]
      rw [if_neg h, if_neg hs]

theorem admission_policy_witness :
    (crawlerA.enqueue urlOther none).2
      = [⟨RKind.ignored, crawlerA.normalizeLink urlOther none, 0,
          Reason.msg "external domain"⟩] :=
  (admission_policy crawlerA urlOther none (by decide)).2.1 (by decide) (by decide)

/-- C4 counterexample: on a 404 response the body has already been
read — `ioutil.ReadAll` (main.go 154) runs before the status check
(main.go 158) — contradicting the claim that the body is not read. -/
theorem status_error_cex :
    (crawlerA.process_url urlRoot (Fetch.resp 404 "text/html" [some urlX])).bodyRead
      = true := by
  decide

/-- C4 (amended): for every fetched response whose status code is not
exactly 200, `process_url` reports one error carrying that numeric
status code and stops — no link extraction, no state change — but the
response body has already been fully read (and is discarded). -/
theorem status_error (c : Crawler) (page : URL) (status : Nat) (ct : String)
    (links : List (Option URL)) (h : status ≠ 200) :
    c.process_url page (Fetch.resp status ct links)
      = ⟨c, [⟨RKind.error, page, status, Reason.nilr⟩], true⟩ := by
  simp only [Crawler.process_url, if_pos h]

theorem status_error_witness :
    crawlerA.process_url urlRoot (Fetch.resp 404 "text/html" [some urlX])
      = ⟨crawlerA, [⟨RKind.error, urlRoot, 404, Reason.nilr⟩], true⟩ :=
  status_error crawlerA urlRoot 404 "text/html" [some urlX] (by decide)

/-- C5 counterexample: with `www = false`, canonicalizing the host
`www.www.a` once gives `www.a` but twice gives `a`, so host
canonicalization is not idempotent for every host. -/
theorem canonical_idem_cex :
    initCrawler.normalize_host (initCrawler.normalize_host "www.www.a")
      ≠ initCrawler.normalize_host "www.www.a" := by
  decide

/-- C5 (amended): host canonicalization is idempotent whenever the
`www` flag is true, and, when the flag is false, for every host that
does not start with `www.www.` (a host with a repeated prefix loses one
`www.` per application). -/
theorem canonical_idem (c : Crawler) (s : String)
    (hyp : c.www = true ∨ hasPfx s "www.www." = false) :
    c.normalize_host (c.normalize_host s) = c.normalize_host s :=
  normalize_host_idem c s hyp

theorem canonical_idem_witness :
    initCrawler.normalize_host (initCrawler.normalize_host "www.a.com")
      = initCrawler.normalize_host "www.a.com" :=
  canonical_idem initCrawler "www.a.com" (Or.inr (by decide))

/-- C6 counterexample: seeding the configured domain `www.www.a` with
`www = false` canonicalizes it to `www.a` and allows that form, but
admission canonicalizes the host once more to `a`, so the seeded URL is
reported ignored as an external domain instead of being enqueued. -/
theorem seeding_cex :
    (initCrawler.seedDomain "www.www.a").1.queue = []
    ∧ (initCrawler.seedDomain "www.www.a").2
        = [⟨RKind.ignored, ⟨"http", "a", "/", "", ""⟩, 0, Reason.msg "external domain"⟩] := by
  decide

/-- C6 (amended): seeding a configured domain canonicalizes it, adds
the canonical form to the allow-list, synthesizes
`http://<canonical-domain>/` and admits it with no base; whenever the
canonical domain is a fixed point of canonicalization (which can fail
only for `www = false` and a domain starting with `www.www.`) and the
seeded URL is not already known, the allow-list lookup agrees and the
seeded URL is enqueued as a task with no ignored report. -/
theorem seeding_admits (c : Crawler) (domain : String)
    (hfix : c.normalize_host (c.normalize_host domain) = c.normalize_host domain)
    (hfresh : (seedURL (c.normalize_host domain)).render ∉ c.known) :
    (c.seedDomain domain).1.queue = c.queue ++ [seedURL (c.normalize_host domain)]
    ∧ (c.seedDomain domain).1.domains = c.domains ++ [c.normalize_host domain]
    ∧ (c.seedDomain domain).1.waiter = c.waiter + 1
    ∧ (c.seedDomain domain).1.known = c.known ++ [(seedURL (c.normalize_host domain)).render]
    ∧ (c.seedDomain domain).2 = [] := by
  have hnorm : ∀ c2 : Crawler, c2.www = c.www →
      c2.normalizeLink (seedURL (c.normalize_host domain)) none
        = seedURL (c.normalize_host domain) := by
    intro c2 hw
    have hh : c2.normalize_host (c.normalize_host domain) = c.normalize_host domain := by
      rw [normalize_host_congr hw]
      exact hfix
    by_cases hd : c.normalize_host domain = ""
    · simp [Crawler.normalizeLink, seedURL, hd]
    · simp [Crawler.normalizeLink, seedURL, hd, hh]
  simp only [Crawler.seedDomain, Crawler.enqueue,
    hnorm { c with domains := c.domains ++ [c.normalize_host domain] } rfl]
  rw [if_neg hfresh, if_pos (show (seedURL (c.normalize_host domain)).scheme = "http" from rfl),
    if_pos (show (seedURL (c.normalize_host domain)).host
        ∈ c.domains ++ [c.normalize_host domain] from
      List.mem_append_right _ (List.mem_singleton.mpr rfl))]
  exact ⟨rfl, rfl, rfl, rfl, rfl⟩

theorem seeding_admits_witness :
    (crawlerA.seedDomain "b.com").1.queue
      = crawlerA.queue ++ [seedURL (crawlerA.normalize_host "b.com")] :=
  (seeding_admits crawlerA "b.com" (by decide) (by decide)).1

/-- C7: before admission and dedup-key computation the fragment is
always stripped and an empty path is normalized to `/`; in particular
`http://a.com/x#frag` and `http://a.com/x` normalize to the same dedup
key, so admitting the second right after the first is a silent no-op. -/
theorem fragment_stripping (c : Crawler) (l : URL) (b : Option URL) :
    (c.normalizeLink l b).fragment = ""
    ∧ (c.normalizeLink l b).path ≠ ""
    ∧ (b = none → l.path = "" → (c.normalizeLink l b).path = "/")
    ∧ c.normalizeLink urlXFrag none = c.normalizeLink urlX none
    ∧ (c.enqueue urlXFrag none).1.enqueue urlX none = ((c.enqueue urlXFrag none).1, []) := by
  have h4 : c.normalizeLink urlXFrag none = c.normalizeLink urlX none := rfl
  refine ⟨normalizeLink_fragment c l b, normalizeLink_path_ne c l b, ?_, h4,
    second_admit_noop c urlXFrag urlX none none h4⟩
  intro hb hp
  subst hb
  simp only [Crawler.normalizeLink, if_pos hp]
  split <;> rfl

theorem fragment_stripping_witness :
    (crawlerA.normalizeLink ⟨"http", "a.com", "", "", "f2"⟩ none).path = "/" :=
  (fragment_stripping crawlerA ⟨"http", "a.com", "", "", "f2"⟩ none).2.2.1 rfl rfl

/-- C8: for every processed task whose URL is in the known-set (as
every dequeued task URL is, by the queue-known invariant), exactly one
reporter event for the task's own URL fires — across transport failure,
non-200 status, content-type rejection and full success — and the
worker performs exactly one tracker decrement: the tracker movement
inside `process_url` is the one increment per newly enqueued task, and
`waiter.Done()` subtracts one. -/
theorem task_outcome (c : Crawler) (page : URL) (f : Fetch)
    (hknown : page.render ∈ c.known) :
    ((c.run_step page f).reports.filter (fun r => r.url = page)).length = 1
    ∧ (c.run_step page f).state.waiter = (c.process_url page f).state.waiter - 1
    ∧ (c.process_url page f).state.waiter - c.waiter
        = ((c.process_url page f).state.queue.length : Int) - (c.queue.length : Int) := by
  refine ⟨?_, rfl, ?_⟩
  · show ((c.process_url page f).reports.filter (fun r => r.url = page)).length = 1
    cases f with
    | fail => simp [Crawler.process_url]
    | resp status ct links =>
      by_cases h200 : status ≠ 200
      · simp [Crawler.process_url, h200]
      · by_cases hct : hasPfx ct "text/html" = true
        · have hnil : (c.crawl_loop page links).2.filter (fun r => decide (r.url = page)) = [] :=
            List.filter_eq_nil_iff.mpr (fun r hr => by
              simpa using crawl_loop_reports_own c page links hknown hr)
          simp [Crawler.process_url, h200, hct, List.filter_append, hnil]
        · simp [Crawler.process_url, h200, hct]
  · cases f with
    | fail => simp [Crawler.process_url]
    | resp status ct links =>
      by_cases h200 : status ≠ 200
      · simp [Crawler.process_url, h200]
      · by_cases hct : hasPfx ct "text/html" = true
        · simp only [Crawler.process_url, h200, hct]
          simpa using crawl_loop_count c page links
        · simp [Crawler.process_url, h200, hct]

theorem task_outcome_witness :
    (((crawlerA.enqueue urlRoot none).1.run_step urlRoot
        (Fetch.resp 200 "text/html" [some urlX])).reports.filter
      (fun r => r.url = urlRoot)).length = 1 :=
  (task_outcome (crawlerA.enqueue urlRoot none).1 urlRoot
    (Fetch.resp 200 "text/html" [some urlX]) (by decide)).1

/-- C9: every ignored report carries httpStatus 0 — those fired by
admission (wrong scheme, external domain) and the content-type
rejection inside `process_url`, which hard-codes 0 even though the page
was fetched with status 200. -/
theorem ignored_status_zero (c : Crawler) (l : URL) (b : Option URL)
    (page : URL) (f : Fetch) :
    (∀ r ∈ (c.enqueue l b).2, r.kind = RKind.ignored → r.status = 0)
    ∧ (∀ r ∈ (c.process_url page f).reports, r.kind = RKind.ignored → r.status = 0) := by
  constructor
  · intro r hr _
    exact (enqueue_reports c l b hr).2.1
  · intro r hr hk
    cases f with
    | fail =>
      simp only [Crawler.process_url, List.mem_singleton] at hr
      rw [hr] at hk
      cases hk
    | resp status ct links =>
      simp only [Crawler.process_url] at hr
      split at hr
      · simp only [List.mem_singleton] at hr
        rw [hr] at hk
        cases hk
      · split at hr
        · simp only [List.mem_singleton] at hr
          rw [hr]
        · rw [List.mem_append] at hr
          cases hr with
          | inl hr => exact (crawl_loop_reports_ignored c page links hr).2
          | inr hr =>
            simp only [List.mem_singleton] at hr
            rw [hr] at hk
            cases hk

theorem ignored_status_zero_witness :
    (Report.mk RKind.ignored urlRoot 0 (Reason.msg "content-type: application/json")).status
      = 0 :=
  (ignored_status_zero crawlerA urlHttps none urlRoot
      (Fetch.resp 200 "application/json" [])).2
    ⟨RKind.ignored, urlRoot, 0, Reason.msg "content-type: application/json"⟩
    (by decide) rfl

/-- C10: admission inserts the normalized dedup key into the known-set
even when the link is rejected by policy, a later admit of a known key
is a silent no-op (so at most one ignored report ever fires per
distinct normalized URL), and the known-set grows monotonically — no
operation removes keys. -/
theorem known_set_monotone (c : Crawler) (l : URL) (b : Option URL)
    (page : URL) (f : Fetch) :
    (c.normalizeLink l b).render ∈ (c.enqueue l b).1.known
    ∧ (∀ s ∈ c.known, s ∈ (c.enqueue l b).1.known)
    ∧ ((c.normalizeLink l b).render ∈ c.known → c.enqueue l b = (c, []))
    ∧ (∀ s ∈ c.known, s ∈ (c.process_url page f).state.known) :=
  ⟨enqueue_key_mem c l b, fun _ hs => enqueue_known_mono c l b hs,
    enqueue_noop c l b, fun _ hs => process_known_mono c page f hs⟩

theorem known_set_monotone_witness :
    "http://a.com/" ∈ ((crawlerA.enqueue urlRoot none).1.enqueue urlHttps none).1.known :=
  (known_set_monotone (crawlerA.enqueue urlRoot none).1 urlHttps none urlRoot Fetch.fail).2.1
    "http://a.com/" (by decide)

end Butler
